import Mathlib

/-!
Verification of the step-wise Dijkstra engine of the Djikstra-Algo-Visualizer
repository (src/utils/dijkstra.ts and src/utils/graphUtils.ts).

The TypeScript code is shallowly embedded:
* JS `Map<string, V>` becomes an insertion-ordered association list
  (`JMap V`), with `Map.set` overwriting in place and appending new keys,
  exactly as JS `Map` does.
* JS `Set<string>` becomes an insertion-ordered duplicate-free list.
* JS numbers used by the algorithm are integers extended with the
  `Infinity` sentinel (`JNum`); every weight and distance the claims
  touch is exact integer arithmetic, and none of the claims depends on
  fractional weights.  The JS truthiness coercions that the code relies
  on (`x || 0`, `x || Infinity`, `x || null`, `!str`) are embedded
  explicitly: `0` and the empty string are falsy, `Infinity` is truthy.
-/

namespace DijkstraVis

/-- JS number as used by the algorithm: an integer or the `Infinity`
sentinel stored in the distances map. -/
inductive JNum where
  | num (val : ℤ)
  | inf
deriving DecidableEq, Repr

/-- JS `a + b` on algorithm numbers: `Infinity` is absorbing (the code only
ever adds a finite edge weight to a distance, so NaN never arises). -/
def JNum.add : JNum → JNum → JNum
  | JNum.num a, JNum.num b => JNum.num (a + b)
  | _, _ => JNum.inf

/-- JS `a < b` on algorithm numbers (`Infinity < Infinity` is false). -/
def JNum.ltb : JNum → JNum → Bool
  | JNum.num a, JNum.num b => decide (a < b)
  | JNum.num _, JNum.inf => true
  | JNum.inf, _ => false

/-- JS `map.get(k) || 0` (line 93 of dijkstra.ts): an absent key gives 0;
a stored 0 is falsy but the fallback is 0 as well, so `getD` is exact. -/
def jsOr0 (o : Option JNum) : JNum := o.getD (JNum.num 0)

/-- JS `map.get(k) || Infinity` (lines 100 and 113 of dijkstra.ts): absent
keys give `Infinity`, and a stored 0 is falsy, so it also gives
`Infinity`. -/
def jsOrInf : Option JNum → JNum
  | none => JNum.inf
  | some v => if v = JNum.num 0 then JNum.inf else v

/-- JS `map.get(k) || null` (line 219 of dijkstra.ts): absent keys give
null, a stored 0 is falsy and gives null, `Infinity` is truthy and is
passed through. -/
def jsOrNull : Option JNum → Option JNum
  | none => none
  | some v => if v = JNum.num 0 then none else some v

/-- JS `map.get(k) || null` on a string-valued map (line 146 of
dijkstra.ts): absent keys and stored nulls give null, and the empty
string is falsy. -/
def jsStrOrNull : Option (Option String) → Option String
  | none => none
  | some none => none
  | some (some s) => if s = "" then none else some s

/-- JS falsiness of a `string | null` value: null and `""` are falsy. -/
def strFalsy : Option String → Bool
  | none => true
  | some s => s == ""

/-- Insertion-ordered association list modelling a JS `Map<string, V>`. -/
abbrev JMap (α : Type) := List (String × α)

/-- JS `map.has(k)`. -/
def mapHas {α : Type} (m : JMap α) (k : String) : Bool :=
  m.any (fun p => p.1 = k)

/-- JS `map.get(k)` (`none` plays the role of `undefined`). -/
def mapGet {α : Type} (m : JMap α) (k : String) : Option α :=
  (m.find? (fun p => p.1 = k)).map Prod.snd

/-- JS `map.set(k, v)`: overwrite in place when the key exists, append
otherwise (JS `Map` keeps insertion order). -/
def mapSet {α : Type} (m : JMap α) (k : String) (v : α) : JMap α :=
  if mapHas m k then m.map (fun p => if p.1 = k then (k, v) else p)
  else m ++ [(k, v)]

/-- JS `set.add(k)` on an insertion-ordered `Set<string>`. -/
def setAdd (s : List String) (k : String) : List String :=
  if k ∈ s then s else s ++ [k]

/-- JS `set.delete(k)`. -/
def setDelete (s : List String) (k : String) : List String :=
  s.filter (fun x => x ≠ k)

/-- Node display status (graphUtils.ts, interface Node).  The TS literal
`'end'` is a Lean keyword, hence `end_`. -/
inductive NodeStatus where
  | default
  | visited
  | current
  | start
  | end_
  | path
deriving DecidableEq, Repr

/-- Edge display status (graphUtils.ts, interface Edge). -/
inductive EdgeStatus where
  | default
  | path
deriving DecidableEq, Repr

/-- graphUtils.ts, interface Node. -/
structure Node where
  id : String
  x : ℤ
  y : ℤ
  label : Option String := none
  status : Option NodeStatus := none
deriving DecidableEq, Repr

/-- graphUtils.ts, interface Edge. -/
structure Edge where
  id : String
  source : String
  target : String
  weight : ℤ
  status : Option EdgeStatus := none
deriving DecidableEq, Repr

/-- graphUtils.ts, interface Graph. -/
structure Graph where
  nodes : List Node
  edges : List Edge
deriving DecidableEq, Repr

/-- dijkstra.ts, interface DijkstraStep. -/
structure DijkstraStep where
  distances : JMap JNum
  previous : JMap (Option String)
  currentNode : Option String
  visitedNodes : List String
  unvisitedNodes : List String
  graph : Graph
  isDone : Bool
  shortestPath : Option (List String)
deriving DecidableEq, Repr

/-- dijkstra.ts, interface DijkstraResult. -/
structure DijkstraResult where
  success : Bool
  steps : List DijkstraStep
  shortestPath : Option (List String)
  shortestDistance : Option JNum
deriving DecidableEq, Repr

/-- graphUtils.ts, `createAdjacencyList`.  In JS the two rows fetched for
an edge are array objects; for a self-loop they are the same object, so
both pushes land in the one row — the self-loop branch reproduces that
aliasing. -/
def createAdjacencyList (graph : Graph) : JMap (List (String × ℤ)) :=
  let start := graph.nodes.foldl (fun m node => mapSet m node.id []) []
  graph.edges.foldl (fun m edge =>
    if edge.source = edge.target then
      let conns := (mapGet m edge.source).getD []
      mapSet m edge.source (conns ++ [(edge.target, edge.weight), (edge.source, edge.weight)])
    else
      let sourceConnections := (mapGet m edge.source).getD []
      let targetConnections := (mapGet m edge.target).getD []
      let m1 := mapSet m edge.source (sourceConnections ++ [(edge.target, edge.weight)])
      mapSet m1 edge.target (targetConnections ++ [(edge.source, edge.weight)])) start

/-- graphUtils.ts, `generateDemoGraph`. -/
def generateDemoGraph : Graph :=
  { nodes := [
      { id := "A", x := 100, y := 150, label := some "A", status := some NodeStatus.default },
      { id := "B", x := 250, y := 80, label := some "B", status := some NodeStatus.default },
      { id := "C", x := 400, y := 150, label := some "C", status := some NodeStatus.default },
      { id := "D", x := 250, y := 250, label := some "D", status := some NodeStatus.default },
      { id := "E", x := 550, y := 220, label := some "E", status := some NodeStatus.default }],
    edges := [
      { id := "A-B", source := "A", target := "B", weight := 4, status := some EdgeStatus.default },
      { id := "A-D", source := "A", target := "D", weight := 3, status := some EdgeStatus.default },
      { id := "B-C", source := "B", target := "C", weight := 5, status := some EdgeStatus.default },
      { id := "B-D", source := "B", target := "D", weight := 2, status := some EdgeStatus.default },
      { id := "C-D", source := "C", target := "D", weight := 1, status := some EdgeStatus.default },
      { id := "C-E", source := "C", target := "E", weight := 6, status := some EdgeStatus.default },
      { id := "D-E", source := "D", target := "E", weight := 8, status := some EdgeStatus.default }] }

/-- dijkstra.ts, `initializeDijkstra`. -/
def initializeDijkstra (graph : Graph) (startNodeId : String) : DijkstraStep :=
  let newNodes := graph.nodes.map (fun node =>
    { node with status :=
        if node.id = startNodeId then some NodeStatus.start
        else if node.status = some NodeStatus.end_ then some NodeStatus.end_
        else some NodeStatus.default })
  { distances := graph.nodes.foldl
      (fun m node => mapSet m node.id (if node.id = startNodeId then JNum.num 0 else JNum.inf)) [],
    previous := graph.nodes.foldl (fun m node => mapSet m node.id none) [],
    currentNode := some startNodeId,
    visitedNodes := [],
    unvisitedNodes := graph.nodes.foldl (fun s node => setAdd s node.id) [],
    graph := { nodes := newNodes, edges := graph.edges },
    isDone := false,
    shortestPath := none }

/-- dijkstra.ts, `dijkstraNextStep` lines 96-106: the relaxation loop over
the current node's neighbor list, threading the (distances, previous)
pair.  `visitedNodes` is the set after the current node was added. -/
def relaxNeighbors (visitedNodes : List String) (currentNodeId : String)
    (currentDistance : JNum) (neighbors : List (String × ℤ))
    (dp : JMap JNum × JMap (Option String)) : JMap JNum × JMap (Option String) :=
  neighbors.foldl (fun dp nb =>
    if nb.1 ∈ visitedNodes then dp
    else
      let newDistance := JNum.add currentDistance (JNum.num nb.2)
      let existingDistance := jsOrInf (mapGet dp.1 nb.1)
      if JNum.ltb newDistance existingDistance then
        (mapSet dp.1 nb.1 newDistance, mapSet dp.2 nb.1 (some currentNodeId))
      else dp) dp

/-- dijkstra.ts, `dijkstraNextStep` lines 108-118: scan the unvisited set
for the smallest distance, starting from (Infinity, null). -/
def selectNext (distances : JMap JNum) (unvisitedNodes : List String) :
    JNum × Option String :=
  unvisitedNodes.foldl (fun acc nodeId =>
    let distance := jsOrInf (mapGet distances nodeId)
    if JNum.ltb distance acc.1 then (distance, some nodeId) else acc)
    (JNum.inf, none)

/-- dijkstra.ts, `dijkstraNextStep` lines 74-128: the non-terminal body,
with `currentNodeId` the (truthy) current node. -/
def dijkstraAdvanceCore (prevStep : DijkstraStep) (currentNodeId : String) : DijkstraStep :=
  let adjacencyList := createAdjacencyList prevStep.graph
  let visitedNodes := setAdd prevStep.visitedNodes currentNodeId
  let unvisitedNodes := setDelete prevStep.unvisitedNodes currentNodeId
  let newNodes := prevStep.graph.nodes.map (fun node =>
    { node with status :=
        if node.id = currentNodeId then
          (if node.status = some NodeStatus.start then some NodeStatus.start
           else some NodeStatus.current)
        else if node.id ∈ visitedNodes then
          (if node.status = some NodeStatus.end_ then some NodeStatus.end_
           else some NodeStatus.visited)
        else node.status })
  let neighbors := (mapGet adjacencyList currentNodeId).getD []
  let currentDistance := jsOr0 (mapGet prevStep.distances currentNodeId)
  let dp := relaxNeighbors visitedNodes currentNodeId currentDistance neighbors
    (prevStep.distances, prevStep.previous)
  let sel := selectNext dp.1 unvisitedNodes
  { distances := dp.1,
    previous := dp.2,
    currentNode := if sel.2 = none ∨ sel.1 = JNum.inf then none else sel.2,
    visitedNodes := visitedNodes,
    unvisitedNodes := unvisitedNodes,
    graph := { nodes := newNodes, edges := prevStep.graph.edges },
    isDone := if sel.2 = none ∨ sel.1 = JNum.inf then true else prevStep.isDone,
    shortestPath := prevStep.shortestPath }

/-- dijkstra.ts, `dijkstraNextStep`.  The JS clone (lines 55-67) copies the
step by value, which is the identity here; the guard on line 70 tests
`isDone || !currentNode`, where the empty string is also falsy. -/
def dijkstraNextStep (prevStep : DijkstraStep) : DijkstraStep :=
  if prevStep.isDone || strFalsy prevStep.currentNode then prevStep
  else
    match prevStep.currentNode with
    | none => prevStep
    | some currentNodeId => dijkstraAdvanceCore prevStep currentNodeId

/-- dijkstra.ts, `constructPath` lines 144-147: the backtracking
`while (current)` loop.  The JS loop terminates exactly when the chain
of predecessors reaches a falsy value; on the algorithm's predecessor
maps the chain is acyclic and stays within the map's keys, so
`previous.length + 1` iterations always suffice and the fuelled loop
agrees with JS wherever JS terminates. -/
def walkPath (previous : JMap (Option String)) :
    Nat → Option String → List String → List String
  | _, none, path => path
  | 0, some _, path => path
  | fuel + 1, some current, path =>
    if current = "" then path
    else walkPath previous fuel (jsStrOrNull (mapGet previous current)) (current :: path)

/-- dijkstra.ts, `constructPath`.  The guard on line 139 is
`!previous.has(end) || previous.get(end) === null && end !== [...previous.keys()][0]`
(`&&` binds tighter than `||`); `[...previous.keys()][0]` is the first
inserted key, i.e. the first node of the graph. -/
def constructPath (endNodeId : String) (previous : JMap (Option String)) :
    Option (List String) :=
  if ¬ mapHas previous endNodeId ∨
      (mapGet previous endNodeId = some none ∧
        (previous.head?).map Prod.fst ≠ some endNodeId) then
    none
  else
    some (walkPath previous (previous.length + 1) (some endNodeId) [])

/-- dijkstra.ts, `visualizeShortestPath`. -/
def visualizeShortestPath (graph : Graph) (path : List String) : Graph :=
  if path.length < 2 then graph
  else
    { nodes := graph.nodes.map (fun node =>
        { node with status :=
            if node.status = some NodeStatus.start ∨ node.status = some NodeStatus.end_ then
              node.status
            else if node.id ∈ path then some NodeStatus.path
            else node.status }),
      edges := graph.edges.map (fun edge =>
        let isPathEdge := path.enum.any (fun p =>
          if p.1 = path.length - 1 then false
          else
            match path.get? (p.1 + 1) with
            | some nextNodeId =>
                (edge.source = p.2 ∧ edge.target = nextNodeId) ∨
                (edge.source = nextNodeId ∧ edge.target = p.2)
            | none => false)
        { edge with status := if isPathEdge then some EdgeStatus.path else edge.status }) }

/-- dijkstra.ts, `runDijkstraAlgorithm` lines 199-203: the
`while (!currentStep.isDone)` loop, pushing every snapshot.  The loop is
fuelled; from a valid start the unvisited set shrinks by one on every
iteration, so `graph.nodes.length + 1` iterations always reach `isDone`
and the fuelled loop agrees with the JS loop wherever it terminates. -/
def runLoop (fuel : Nat) (currentStep : DijkstraStep) (steps : List DijkstraStep) :
    DijkstraStep × List DijkstraStep :=
  match fuel with
  | 0 => (currentStep, steps)
  | fuel + 1 =>
    if currentStep.isDone then (currentStep, steps)
    else
      let next := dijkstraNextStep currentStep
      runLoop fuel next (steps ++ [next])

/-- The step the run loop of `runDijkstraAlgorithm` exits with. -/
def finalRunStep (graph : Graph) (startNodeId : String) : DijkstraStep :=
  (runLoop (graph.nodes.length + 1) (initializeDijkstra graph startNodeId)
    [initializeDijkstra graph startNodeId]).1

/-- dijkstra.ts, `runDijkstraAlgorithm`.  Line 211 overwrites the graph
and shortestPath of the last pushed snapshot when a non-empty path was
reconstructed; `success` is `!!shortestPath` (an array is always truthy)
and `shortestDistance` is `distances.get(endNodeId) || null`. -/
def runDijkstraAlgorithm (graph : Graph) (startNodeId endNodeId : String) :
    DijkstraResult :=
  let first := initializeDijkstra graph startNodeId
  let pair := runLoop (graph.nodes.length + 1) first [first]
  let currentStep := pair.1
  let steps := pair.2
  let shortestPath := constructPath endNodeId currentStep.previous
  let steps' := match shortestPath with
    | some p =>
        if p.length > 0 then
          steps.dropLast ++ [{ (steps.getLast?.getD currentStep) with
            graph := visualizeShortestPath currentStep.graph p,
            shortestPath := some p }]
        else steps
    | none => steps
  { success := shortestPath.isSome,
    steps := steps',
    shortestPath := shortestPath,
    shortestDistance := jsOrNull (mapGet currentStep.distances endNodeId) }

/-- The sequence of steps produced by `initializeDijkstra` followed by
repeated `dijkstraNextStep`, as driven by the caller (one snapshot per
advance call). -/
def traceStep (graph : Graph) (startNodeId : String) : Nat → DijkstraStep
  | 0 => initializeDijkstra graph startNodeId
  | n + 1 => dijkstraNextStep (traceStep graph startNodeId n)

/-- Invariant of steps reachable from a valid initialization: the
unvisited list is duplicate-free and drawn from `ids`, and a non-terminal
step's current node is one of its unvisited nodes. -/
def StepInvariant (ids : List String) (s : DijkstraStep) : Prop :=
  s.unvisitedNodes.Nodup ∧
  (∀ x ∈ s.unvisitedNodes, x ∈ ids) ∧
  (s.isDone = false → ∃ u, s.currentNode = some u ∧ u ∈ s.unvisitedNodes)

/-- The visited/unvisited partition and map-domain properties of claim
C10: visited and unvisited are disjoint, their union is exactly the node
ids of the input graph, and the distances and previous maps have exactly
the node ids as their key set. -/
def PartitionInvariant (g : Graph) (s : DijkstraStep) : Prop :=
  (∀ x, x ∈ s.visitedNodes → x ∉ s.unvisitedNodes) ∧
  (∀ x, (x ∈ s.visitedNodes ∨ x ∈ s.unvisitedNodes) ↔ x ∈ g.nodes.map Node.id) ∧
  (∀ x, (mapGet s.distances x).isSome ↔ x ∈ g.nodes.map Node.id) ∧
  (∀ x, (mapGet s.previous x).isSome ↔ x ∈ g.nodes.map Node.id)

/-- The step's graph copy keeps the node ids and edges of the input graph
(only statuses are rewritten). -/
def GraphShapeInvariant (g : Graph) (s : DijkstraStep) : Prop :=
  s.graph.nodes.map Node.id = g.nodes.map Node.id ∧ s.graph.edges = g.edges

/-- The data-model invariant of the spec (section 3): edge endpoints
reference existing node ids. -/
def edgesReferenceNodes (g : Graph) : Prop :=
  ∀ e ∈ g.edges, e.source ∈ g.nodes.map Node.id ∧ e.target ∈ g.nodes.map Node.id

/-- Concrete test input: two isolated nodes, the end node inserted second. -/
def isolatedPairSX : Graph :=
  { nodes := [{ id := "S", x := 0, y := 0 }, { id := "X", x := 1, y := 1 }], edges := [] }

/-- Concrete test input: two isolated nodes, the end node inserted first. -/
def isolatedPairXS : Graph :=
  { nodes := [{ id := "X", x := 0, y := 0 }, { id := "S", x := 1, y := 1 }], edges := [] }

/-- Concrete test input: a second node carrying a pre-existing `visited`
status. -/
def statusProbeGraph : Graph :=
  { nodes := [{ id := "A", x := 0, y := 0, status := some NodeStatus.default },
              { id := "B", x := 1, y := 1, status := some NodeStatus.visited }],
    edges := [] }

/-- Concrete test input: two nodes joined by one edge of weight 1. -/
def pairEdgeGraph : Graph :=
  { nodes := [{ id := "A", x := 0, y := 0 }, { id := "B", x := 1, y := 1 }],
    edges := [{ id := "A-B", source := "A", target := "B", weight := 1 }] }

/-! ### Lemmas about the JS map and set primitives -/

theorem mapGet_nil {α : Type} (x : String) : mapGet ([] : JMap α) x = none := rfl

theorem mapGet_cons {α : Type} (p : String × α) (t : JMap α) (x : String) :
    mapGet (p :: t) x = if p.1 = x then some p.2 else mapGet t x := by
  by_cases h : p.1 = x <;> simp [mapGet, List.find?, h]

theorem mapHas_true_iff {α : Type} (m : JMap α) (k : String) :
    mapHas m k = true ↔ (mapGet m k).isSome := by
  induction m with
  | nil => simp [mapHas, mapGet]
  | cons p t ih =>
    rw [mapGet_cons]
    by_cases h : p.1 = k
    · simp [mapHas, List.any_cons, h]
    · simpa [mapHas, List.any_cons, h] using ih

theorem mapHas_false_get {α : Type} {m : JMap α} {k : String}
    (h : mapHas m k = false) : mapGet m k = none := by
  have := mapHas_true_iff m k
  rcases hg : mapGet m k with _ | v
  · rfl
  · rw [hg] at this
    simp at this
    rw [this] at h
    cases h

theorem mapGet_overwrite_of_ne {α : Type} (m : JMap α) (k x : String) (v : α)
    (hx : x ≠ k) :
    mapGet (m.map (fun p => if p.1 = k then (k, v) else p)) x = mapGet m x := by
  induction m with
  | nil => rfl
  | cons p t ih =>
    by_cases hp : p.1 = k
    · simp only [List.map_cons, hp, if_pos rfl]
      rw [mapGet_cons, mapGet_cons, hp]
      have : ¬ (k = x) := fun h => hx h.symm
      simp [this, ih]
    · simp only [List.map_cons, if_neg hp]
      rw [mapGet_cons, mapGet_cons]
      by_cases hpx : p.1 = x
      · simp [hpx]
      · simp [hpx, ih]

theorem mapGet_overwrite_self {α : Type} (m : JMap α) (k : String) (v : α)
    (h : mapHas m k = true) :
    mapGet (m.map (fun p => if p.1 = k then (k, v) else p)) k = some v := by
  induction m with
  | nil => cases h
  | cons p t ih =>
    by_cases hp : p.1 = k
    · simp only [List.map_cons, hp, if_pos rfl]
      rw [mapGet_cons]
      simp
    · simp only [List.map_cons, if_neg hp]
      rw [mapGet_cons]
      have ht : mapHas t k = true := by
        simp only [mapHas, List.any_cons, Bool.or_eq_true] at h
        rcases h with h | h
        · exact absurd (by simpa using h) hp
        · simpa [mapHas] using h
      simp [hp, ih ht]

theorem mapGet_append_single_self {α : Type} (m : JMap α) (k : String) (v : α)
    (h : mapHas m k = false) :
    mapGet (m ++ [(k, v)]) k = some v := by
  induction m with
  | nil => simp [mapGet, List.find?]
  | cons p t ih =>
    rw [mapHas, List.any_cons, Bool.or_eq_false_iff] at h
    obtain ⟨h1, h2⟩ := h
    have hp : ¬ (p.1 = k) := by simpa using h1
    rw [List.cons_append, mapGet_cons, if_neg hp]
    exact ih h2

theorem mapGet_append_single_ne {α : Type} (m : JMap α) (k x : String) (v : α)
    (hx : x ≠ k) :
    mapGet (m ++ [(k, v)]) x = mapGet m x := by
  induction m with
  | nil =>
    have hkx : ¬ (k = x) := fun h => hx h.symm
    simp [mapGet, List.find?, hkx]
  | cons p t ih =>
    rw [List.cons_append, mapGet_cons, mapGet_cons]
    by_cases hp : p.1 = x
    · simp [hp]
    · simp [hp, ih]

theorem mapGet_mapSet_self {α : Type} (m : JMap α) (k : String) (v : α) :
    mapGet (mapSet m k v) k = some v := by
  unfold mapSet
  by_cases h : mapHas m k = true
  · simp only [h, if_pos rfl]
    exact mapGet_overwrite_self m k v h
  · have h' : mapHas m k = false := by simpa using h
    simp only [h', Bool.false_eq_true, if_neg]
    exact mapGet_append_single_self m k v h'

theorem mapGet_mapSet_ne {α : Type} (m : JMap α) (k x : String) (v : α)
    (hx : x ≠ k) :
    mapGet (mapSet m k v) x = mapGet m x := by
  unfold mapSet
  by_cases h : mapHas m k = true
  · simp only [h, if_pos rfl]
    exact mapGet_overwrite_of_ne m k x v hx
  · have h' : mapHas m k = false := by simpa using h
    simp only [h', Bool.false_eq_true, if_neg]
    exact mapGet_append_single_ne m k x v hx

theorem mapGet_mapSet {α : Type} (m : JMap α) (k x : String) (v : α) :
    mapGet (mapSet m k v) x = if x = k then some v else mapGet m x := by
  by_cases hx : x = k
  · subst hx
    simp [mapGet_mapSet_self]
  · simp [hx, mapGet_mapSet_ne m k x v hx]

theorem isSome_mapGet_mapSet {α : Type} (m : JMap α) (k x : String) (v : α) :
    (mapGet (mapSet m k v) x).isSome ↔ x = k ∨ (mapGet m x).isSome := by
  rw [mapGet_mapSet]
  by_cases hx : x = k <;> simp [hx]

theorem mem_setAdd (s : List String) (k x : String) :
    x ∈ setAdd s k ↔ x ∈ s ∨ x = k := by
  unfold setAdd
  by_cases h : k ∈ s
  · simp only [h, if_pos rfl]
    constructor
    · exact Or.inl
    · rintro (hx | rfl)
      · exact hx
      · exact h
  · simp [h]

theorem nodup_setAdd (s : List String) (k : String) (h : s.Nodup) :
    (setAdd s k).Nodup := by
  unfold setAdd
  by_cases hk : k ∈ s
  · simpa [hk]
  · simp only [hk, if_neg, Bool.false_eq_true]
    simpa [List.nodup_append, h] using hk

theorem mem_setDelete (s : List String) (k x : String) :
    x ∈ setDelete s k ↔ x ∈ s ∧ x ≠ k := by
  simp [setDelete, List.mem_filter]

theorem nodup_setDelete (s : List String) (k : String) (h : s.Nodup) :
    (setDelete s k).Nodup :=
  List.Nodup.filter _ h

theorem filter_ne_of_not_mem (s : List String) (k : String) (h : k ∉ s) :
    s.filter (fun x => x ≠ k) = s := by
  rw [List.filter_eq_self]
  intro a ha
  have hak : a ≠ k := fun hak => h (hak ▸ ha)
  simpa using hak

theorem length_setDelete (s : List String) (k : String)
    (hk : k ∈ s) (hnd : s.Nodup) :
    (setDelete s k).length + 1 = s.length := by
  induction s with
  | nil => cases hk
  | cons p t ih =>
    rcases List.mem_cons.mp hk with rfl | hkt
    · have hpt : k ∉ t := (List.nodup_cons.mp hnd).1
      unfold setDelete
      rw [List.filter_cons, if_neg (by simp)]
      rw [show t.filter (fun x => decide (x ≠ k)) = t from filter_ne_of_not_mem t k hpt]
      simp
    · have hp : p ≠ k := by
        intro hpk
        exact (List.nodup_cons.mp hnd).1 (hpk ▸ hkt)
      have hrec := ih hkt (List.nodup_cons.mp hnd).2
      unfold setDelete at hrec ⊢
      rw [List.filter_cons, if_pos (by simpa using hp)]
      simpa using hrec

/-! ### Lemmas about the initialization folds -/

theorem foldl_mapSet_get {α : Type} (l : List Node) (f : String → α) (acc : JMap α)
    (x : String) :
    mapGet (l.foldl (fun m node => mapSet m node.id (f node.id)) acc) x =
      if x ∈ l.map Node.id then some (f x) else mapGet acc x := by
  induction l generalizing acc with
  | nil => simp
  | cons n t ih =>
    rw [List.foldl_cons, ih]
    by_cases hxt : x ∈ t.map Node.id
    · simp [hxt]
    · by_cases hxn : x = n.id
      · simp [hxt, hxn, mapGet_mapSet_self]
      · simp [hxt, hxn, mapGet_mapSet_ne acc n.id x _ hxn]

theorem foldl_setAdd_mem (l : List Node) (acc : List String) (x : String) :
    x ∈ l.foldl (fun s node => setAdd s node.id) acc ↔
      x ∈ acc ∨ x ∈ l.map Node.id := by
  induction l generalizing acc with
  | nil => simp
  | cons n t ih =>
    rw [List.foldl_cons, ih, mem_setAdd]
    simp
    tauto

theorem foldl_setAdd_nodup (l : List Node) (acc : List String) (h : acc.Nodup) :
    (l.foldl (fun s node => setAdd s node.id) acc).Nodup := by
  induction l generalizing acc with
  | nil => simpa
  | cons n t ih => exact ih _ (nodup_setAdd acc n.id h)

theorem foldl_setAdd_length_le (l : List Node) (acc : List String) :
    (l.foldl (fun s node => setAdd s node.id) acc).length ≤ acc.length + l.length := by
  induction l generalizing acc with
  | nil => simp
  | cons n t ih =>
    rw [List.foldl_cons]
    refine le_trans (ih (setAdd acc n.id)) ?_
    have : (setAdd acc n.id).length ≤ acc.length + 1 := by
      unfold setAdd
      by_cases h : n.id ∈ acc <;> simp [h]
    simp only [List.length_cons]
    omega

/-! ### Lemmas about the relaxation loop -/

theorem relaxNeighbors_nil (vis : List String) (u : String) (cd : JNum)
    (dp : JMap JNum × JMap (Option String)) :
    relaxNeighbors vis u cd [] dp = dp := rfl

theorem relaxNeighbors_cons (vis : List String) (u : String) (cd : JNum)
    (nb : String × ℤ) (t : List (String × ℤ)) (dp : JMap JNum × JMap (Option String)) :
    relaxNeighbors vis u cd (nb :: t) dp =
      relaxNeighbors vis u cd t
        (if nb.1 ∈ vis then dp
         else if JNum.ltb (JNum.add cd (JNum.num nb.2)) (jsOrInf (mapGet dp.1 nb.1)) then
           (mapSet dp.1 nb.1 (JNum.add cd (JNum.num nb.2)), mapSet dp.2 nb.1 (some u))
         else dp) := by
  unfold relaxNeighbors
  rw [List.foldl_cons]

theorem relaxNeighbors_append (vis : List String) (u : String) (cd : JNum)
    (l1 l2 : List (String × ℤ)) (dp : JMap JNum × JMap (Option String)) :
    relaxNeighbors vis u cd (l1 ++ l2) dp =
      relaxNeighbors vis u cd l2 (relaxNeighbors vis u cd l1 dp) := by
  unfold relaxNeighbors
  rw [List.foldl_append]

theorem relaxNeighbors_get_of_not_mem (vis : List String) (u : String) (cd : JNum)
    (l : List (String × ℤ)) (dp : JMap JNum × JMap (Option String)) (x : String)
    (hx : x ∉ l.map Prod.fst) :
    mapGet (relaxNeighbors vis u cd l dp).1 x = mapGet dp.1 x ∧
    mapGet (relaxNeighbors vis u cd l dp).2 x = mapGet dp.2 x := by
  induction l generalizing dp with
  | nil => exact ⟨rfl, rfl⟩
  | cons nb t ih =>
    have hx1 : x ≠ nb.1 := by
      intro h
      exact hx (by simp [h])
    have hxt : x ∉ t.map Prod.fst := fun h => hx (by simp [h])
    rw [relaxNeighbors_cons]
    by_cases h1 : nb.1 ∈ vis
    · simpa [h1] using ih _ hxt
    · by_cases h2 : JNum.ltb (JNum.add cd (JNum.num nb.2)) (jsOrInf (mapGet dp.1 nb.1)) = true
      · obtain ⟨ha, hb⟩ := ih (mapSet dp.1 nb.1 (JNum.add cd (JNum.num nb.2)),
          mapSet dp.2 nb.1 (some u)) hxt
        rw [if_neg h1, if_pos h2]
        constructor
        · rw [ha]
          exact mapGet_mapSet_ne dp.1 nb.1 x _ hx1
        · rw [hb]
          exact mapGet_mapSet_ne dp.2 nb.1 x _ hx1
      · have h2' : JNum.ltb (JNum.add cd (JNum.num nb.2)) (jsOrInf (mapGet dp.1 nb.1)) = false := by
          simpa using h2
        simpa [h1, h2'] using ih dp hxt

theorem relaxNeighbors_get_of_visited (vis : List String) (u : String) (cd : JNum)
    (l : List (String × ℤ)) (dp : JMap JNum × JMap (Option String)) (x : String)
    (hx : x ∈ vis) :
    mapGet (relaxNeighbors vis u cd l dp).1 x = mapGet dp.1 x ∧
    mapGet (relaxNeighbors vis u cd l dp).2 x = mapGet dp.2 x := by
  induction l generalizing dp with
  | nil => exact ⟨rfl, rfl⟩
  | cons nb t ih =>
    rw [relaxNeighbors_cons]
    by_cases h1 : nb.1 ∈ vis
    · simpa [h1] using ih dp
    · have hx1 : x ≠ nb.1 := fun h => h1 (h ▸ hx)
      by_cases h2 : JNum.ltb (JNum.add cd (JNum.num nb.2)) (jsOrInf (mapGet dp.1 nb.1)) = true
      · obtain ⟨ha, hb⟩ := ih (mapSet dp.1 nb.1 (JNum.add cd (JNum.num nb.2)),
          mapSet dp.2 nb.1 (some u))
        rw [if_neg h1, if_pos h2]
        constructor
        · rw [ha]
          exact mapGet_mapSet_ne dp.1 nb.1 x _ hx1
        · rw [hb]
          exact mapGet_mapSet_ne dp.2 nb.1 x _ hx1
      · have h2' : JNum.ltb (JNum.add cd (JNum.num nb.2)) (jsOrInf (mapGet dp.1 nb.1)) = false := by
          simpa using h2
        simpa [h1, h2'] using ih dp

theorem relaxNeighbors_isSome (vis : List String) (u : String) (cd : JNum)
    (l : List (String × ℤ)) (dp : JMap JNum × JMap (Option String)) (S : List String)
    (hl : ∀ p ∈ l, p.1 ∈ S)
    (h1 : ∀ x, (mapGet dp.1 x).isSome ↔ x ∈ S)
    (h2 : ∀ x, (mapGet dp.2 x).isSome ↔ x ∈ S) :
    (∀ x, (mapGet (relaxNeighbors vis u cd l dp).1 x).isSome ↔ x ∈ S) ∧
    (∀ x, (mapGet (relaxNeighbors vis u cd l dp).2 x).isSome ↔ x ∈ S) := by
  induction l generalizing dp with
  | nil => exact ⟨h1, h2⟩
  | cons nb t ih =>
    have hnb : nb.1 ∈ S := hl nb (List.mem_cons_self nb t)
    have hlt : ∀ p ∈ t, p.1 ∈ S := fun p hp => hl p (List.mem_cons_of_mem nb hp)
    rw [relaxNeighbors_cons]
    by_cases hv : nb.1 ∈ vis
    · simpa [hv] using ih dp hlt h1 h2
    · by_cases hc : JNum.ltb (JNum.add cd (JNum.num nb.2)) (jsOrInf (mapGet dp.1 nb.1)) = true
      · rw [if_neg hv, if_pos hc]
        refine ih _ hlt ?_ ?_
        · intro x
          rw [isSome_mapGet_mapSet]
          constructor
          · rintro (rfl | hx)
            · exact hnb
            · exact (h1 x).mp hx
          · intro hx
            exact Or.inr ((h1 x).mpr hx)
        · intro x
          rw [isSome_mapGet_mapSet]
          constructor
          · rintro (rfl | hx)
            · exact hnb
            · exact (h2 x).mp hx
          · intro hx
            exact Or.inr ((h2 x).mpr hx)
      · have hc' : JNum.ltb (JNum.add cd (JNum.num nb.2)) (jsOrInf (mapGet dp.1 nb.1)) = false := by
          simpa using hc
        simpa [hv, hc'] using ih dp hlt h1 h2

/-! ### Lemmas about the next-node selection -/

theorem selectNext_foldl_mem (d : JMap JNum) (l : List String)
    (acc : JNum × Option String) (v : String)
    (h : (l.foldl (fun acc nodeId =>
        if JNum.ltb (jsOrInf (mapGet d nodeId)) acc.1 then
          (jsOrInf (mapGet d nodeId), some nodeId)
        else acc) acc).2 = some v) :
    v ∈ l ∨ acc.2 = some v := by
  induction l generalizing acc with
  | nil => exact Or.inr h
  | cons p t ih =>
    rw [List.foldl_cons] at h
    rcases ih _ h with hv | hv
    · exact Or.inl (List.mem_cons_of_mem p hv)
    · by_cases hc : JNum.ltb (jsOrInf (mapGet d p)) acc.1 = true
      · rw [if_pos hc] at hv
        simp at hv
        exact Or.inl (hv ▸ List.mem_cons_self p t)
      · have hc' : JNum.ltb (jsOrInf (mapGet d p)) acc.1 = false := by simpa using hc
        rw [if_neg (by simp [hc'])] at hv
        exact Or.inr hv

theorem selectNext_mem (d : JMap JNum) (l : List String) (v : String)
    (h : (selectNext d l).2 = some v) : v ∈ l := by
  have := selectNext_foldl_mem d l (JNum.inf, none) v (by simpa [selectNext] using h)
  rcases this with hv | hv
  · exact hv
  · cases hv

/-! ### Unfolding lemmas for the advance step -/

theorem advanceCore_visitedNodes (s : DijkstraStep) (u : String) :
    (dijkstraAdvanceCore s u).visitedNodes = setAdd s.visitedNodes u := rfl

theorem advanceCore_unvisitedNodes (s : DijkstraStep) (u : String) :
    (dijkstraAdvanceCore s u).unvisitedNodes = setDelete s.unvisitedNodes u := rfl

theorem advanceCore_distances (s : DijkstraStep) (u : String) :
    (dijkstraAdvanceCore s u).distances =
      (relaxNeighbors (setAdd s.visitedNodes u) u (jsOr0 (mapGet s.distances u))
        ((mapGet (createAdjacencyList s.graph) u).getD [])
        (s.distances, s.previous)).1 := rfl

theorem advanceCore_previous (s : DijkstraStep) (u : String) :
    (dijkstraAdvanceCore s u).previous =
      (relaxNeighbors (setAdd s.visitedNodes u) u (jsOr0 (mapGet s.distances u))
        ((mapGet (createAdjacencyList s.graph) u).getD [])
        (s.distances, s.previous)).2 := rfl

theorem advanceCore_currentNode (s : DijkstraStep) (u : String) :
    (dijkstraAdvanceCore s u).currentNode =
      (if (selectNext (dijkstraAdvanceCore s u).distances (setDelete s.unvisitedNodes u)).2 = none ∨
          (selectNext (dijkstraAdvanceCore s u).distances (setDelete s.unvisitedNodes u)).1 = JNum.inf
       then none
       else (selectNext (dijkstraAdvanceCore s u).distances (setDelete s.unvisitedNodes u)).2) := rfl

theorem advanceCore_isDone (s : DijkstraStep) (u : String) :
    (dijkstraAdvanceCore s u).isDone =
      (if (selectNext (dijkstraAdvanceCore s u).distances (setDelete s.unvisitedNodes u)).2 = none ∨
          (selectNext (dijkstraAdvanceCore s u).distances (setDelete s.unvisitedNodes u)).1 = JNum.inf
       then true
       else s.isDone) := rfl

theorem advanceCore_edges (s : DijkstraStep) (u : String) :
    (dijkstraAdvanceCore s u).graph.edges = s.graph.edges := rfl

theorem advanceCore_nodes_map_id (s : DijkstraStep) (u : String) :
    (dijkstraAdvanceCore s u).graph.nodes.map Node.id = s.graph.nodes.map Node.id := by
  show (s.graph.nodes.map _).map Node.id = s.graph.nodes.map Node.id
  rw [List.map_map]
  rfl

theorem dijkstraNextStep_of_done (s : DijkstraStep) (h : s.isDone = true) :
    dijkstraNextStep s = s := by
  unfold dijkstraNextStep
  rw [h]
  rfl

theorem dijkstraNextStep_of_falsy (s : DijkstraStep) (h : strFalsy s.currentNode = true) :
    dijkstraNextStep s = s := by
  unfold dijkstraNextStep
  rw [h, Bool.or_true]
  rfl

theorem dijkstraNextStep_eq_core (s : DijkstraStep) (u : String)
    (hdone : s.isDone = false) (hcur : s.currentNode = some u) (hu : u ≠ "") :
    dijkstraNextStep s = dijkstraAdvanceCore s u := by
  unfold dijkstraNextStep
  have hf : strFalsy s.currentNode = false := by
    rw [hcur]
    simpa [strFalsy] using hu
  rw [hdone, hf, hcur]
  rfl

/-- Either the advance is the identity (terminal or falsy current node),
or it is the core body at the step's current node. -/
theorem dijkstraNextStep_cases (s : DijkstraStep) :
    dijkstraNextStep s = s ∨
      ∃ u, s.isDone = false ∧ s.currentNode = some u ∧ u ≠ "" ∧
        dijkstraNextStep s = dijkstraAdvanceCore s u := by
  by_cases hdone : s.isDone = true
  · exact Or.inl (dijkstraNextStep_of_done s hdone)
  · have hdone' : s.isDone = false := by simpa using hdone
    cases hcur : s.currentNode with
    | none => exact Or.inl (dijkstraNextStep_of_falsy s (by rw [hcur]; rfl))
    | some u =>
      by_cases hu : u = ""
      · refine Or.inl (dijkstraNextStep_of_falsy s ?_)
        rw [hcur, hu]
        rfl
      · exact Or.inr ⟨u, hdone', rfl, hu, dijkstraNextStep_eq_core s u hdone' hcur hu⟩


/-- Once visited, a node stays visited across one advance and its stored
distance does not change. -/
theorem advance_keeps_visited (s : DijkstraStep) (x : String)
    (hx : x ∈ s.visitedNodes) :
    x ∈ (dijkstraNextStep s).visitedNodes ∧
    mapGet (dijkstraNextStep s).distances x = mapGet s.distances x := by
  rcases dijkstraNextStep_cases s with h | ⟨u, _, _, _, h⟩
  · rw [h]
    exact ⟨hx, rfl⟩
  · rw [h, advanceCore_visitedNodes, advanceCore_distances]
    constructor
    · exact (mem_setAdd _ _ _).mpr (Or.inl hx)
    · exact (relaxNeighbors_get_of_visited _ _ _ _ _ x
        ((mem_setAdd _ _ _).mpr (Or.inl hx))).1

/-- The step invariant is preserved by one advance. -/
theorem stepInvariant_advance (ids : List String) (s : DijkstraStep)
    (hinv : StepInvariant ids s) : StepInvariant ids (dijkstraNextStep s) := by
  obtain ⟨hnd, hsub, hcur⟩ := hinv
  rcases dijkstraNextStep_cases s with h | ⟨u, hdone, hcur', _, h⟩
  · rw [h]
    exact ⟨hnd, hsub, hcur⟩
  · rw [h]
    refine ⟨?_, ?_, ?_⟩
    · rw [advanceCore_unvisitedNodes]
      exact nodup_setDelete _ _ hnd
    · intro x hx
      rw [advanceCore_unvisitedNodes, mem_setDelete] at hx
      exact hsub x hx.1
    · intro hdone2
      rw [advanceCore_isDone] at hdone2
      rw [advanceCore_currentNode]
      by_cases hsel : (selectNext (dijkstraAdvanceCore s u).distances
          (setDelete s.unvisitedNodes u)).2 = none ∨
          (selectNext (dijkstraAdvanceCore s u).distances
            (setDelete s.unvisitedNodes u)).1 = JNum.inf
      · rw [if_pos hsel] at hdone2
        cases hdone2
      · rw [if_neg hsel] at hdone2 ⊢
        rcases hv : (selectNext (dijkstraAdvanceCore s u).distances
            (setDelete s.unvisitedNodes u)).2 with _ | v
        · exact absurd (Or.inl hv) hsel
        · refine ⟨v, rfl, ?_⟩
          rw [advanceCore_unvisitedNodes]
          exact selectNext_mem _ _ v hv

/-- A non-terminal step satisfying the invariant advances by removing its
current node (an unvisited one) from the unvisited list. -/
theorem advance_removes_one (ids : List String) (s : DijkstraStep)
    (hinv : StepInvariant ids s) (hne : ∀ x ∈ ids, x ≠ "")
    (hdone : s.isDone = false) :
    ∃ u, s.currentNode = some u ∧ u ∈ s.unvisitedNodes ∧
      (dijkstraNextStep s).unvisitedNodes.length + 1 = s.unvisitedNodes.length := by
  obtain ⟨hnd, hsub, hcur⟩ := hinv
  obtain ⟨u, hcu, hmem⟩ := hcur hdone
  have hu : u ≠ "" := hne u (hsub u hmem)
  refine ⟨u, hcu, hmem, ?_⟩
  rw [dijkstraNextStep_eq_core s u hdone hcu hu, advanceCore_unvisitedNodes]
  exact length_setDelete _ _ hmem hnd

/-- The initial step satisfies the step invariant when the start id names
an existing node. -/
theorem stepInvariant_init (g : Graph) (startNodeId : String)
    (hstart : startNodeId ∈ g.nodes.map Node.id) :
    StepInvariant (g.nodes.map Node.id) (initializeDijkstra g startNodeId) := by
  refine ⟨?_, ?_, ?_⟩
  · exact foldl_setAdd_nodup _ _ List.nodup_nil
  · intro x hx
    have := (foldl_setAdd_mem g.nodes [] x).mp hx
    simpa using this
  · intro _
    refine ⟨startNodeId, rfl, ?_⟩
    exact (foldl_setAdd_mem g.nodes [] startNodeId).mpr (Or.inr hstart)

/-! ### Trace-level lemmas -/

theorem stepInvariant_trace (g : Graph) (startNodeId : String)
    (hstart : startNodeId ∈ g.nodes.map Node.id) (i : Nat) :
    StepInvariant (g.nodes.map Node.id) (traceStep g startNodeId i) := by
  induction i with
  | zero => exact stepInvariant_init g startNodeId hstart
  | succ n ih => exact stepInvariant_advance _ _ ih

theorem traceStep_done_mono (g : Graph) (startNodeId : String) (i : Nat)
    (h : (traceStep g startNodeId i).isDone = true) :
    (traceStep g startNodeId (i + 1)).isDone = true := by
  show (dijkstraNextStep (traceStep g startNodeId i)).isDone = true
  rw [dijkstraNextStep_of_done _ h]
  exact h

theorem traceStep_length_bound (g : Graph) (startNodeId : String)
    (hstart : startNodeId ∈ g.nodes.map Node.id)
    (hne : ∀ x ∈ g.nodes.map Node.id, x ≠ "") (i : Nat)
    (h : (traceStep g startNodeId i).isDone = false) :
    (traceStep g startNodeId i).unvisitedNodes.length + i ≤
      (traceStep g startNodeId 0).unvisitedNodes.length := by
  induction i with
  | zero => simp
  | succ n ih =>
    have hn : (traceStep g startNodeId n).isDone = false := by
      by_cases hd : (traceStep g startNodeId n).isDone = true
      · rw [traceStep_done_mono g startNodeId n hd] at h
        cases h
      · simpa using hd
    obtain ⟨u, _, _, hlen⟩ := advance_removes_one _ _
      (stepInvariant_trace g startNodeId hstart n) hne hn
    have := ih hn
    show (dijkstraNextStep (traceStep g startNodeId n)).unvisitedNodes.length + (n + 1) ≤ _
    omega

/-! ### Adjacency-list values stay within the node ids (for well-formed graphs) -/

theorem adjacency_fold_values (S : List String) (edges : List Edge)
    (hw : ∀ e ∈ edges, e.source ∈ S ∧ e.target ∈ S)
    (m : JMap (List (String × ℤ)))
    (hm : ∀ k l, mapGet m k = some l → ∀ p ∈ l, p.1 ∈ S) :
    ∀ k l, mapGet (edges.foldl (fun m edge =>
        if edge.source = edge.target then
          let conns := (mapGet m edge.source).getD []
          mapSet m edge.source
            (conns ++ [(edge.target, edge.weight), (edge.source, edge.weight)])
        else
          let sourceConnections := (mapGet m edge.source).getD []
          let targetConnections := (mapGet m edge.target).getD []
          let m1 := mapSet m edge.source (sourceConnections ++ [(edge.target, edge.weight)])
          mapSet m1 edge.target (targetConnections ++ [(edge.source, edge.weight)])) m) k =
        some l →
      ∀ p ∈ l, p.1 ∈ S := by
  induction edges generalizing m with
  | nil => exact hm
  | cons e t ih =>
    have he := hw e (List.mem_cons_self e t)
    have hwt : ∀ e' ∈ t, e'.source ∈ S ∧ e'.target ∈ S :=
      fun e' h' => hw e' (List.mem_cons_of_mem e h')
    rw [List.foldl_cons]
    refine ih hwt _ ?_
    have hgetD : ∀ k, ∀ p ∈ (mapGet m k).getD [], p.1 ∈ S := by
      intro k p hp
      rcases hk : mapGet m k with _ | c
      · rw [hk] at hp
        cases hp
      · rw [hk] at hp
        exact hm k c hk p hp
    by_cases hself : e.source = e.target
    · rw [if_pos hself]
      intro k l hk p hp
      by_cases hks : k = e.source
      · subst hks
        rw [mapGet_mapSet_self] at hk
        injection hk with hk
        subst hk
        rcases List.mem_append.mp hp with hp | hp
        · exact hgetD _ p hp
        · rcases List.mem_cons.mp hp with hpe | hp2
          · rw [hpe]
            exact he.2
          · rcases List.mem_cons.mp hp2 with hpe | hp3
            · rw [hpe]
              exact he.1
            · cases hp3
      · rw [mapGet_mapSet_ne _ _ _ _ hks] at hk
        exact hm k l hk p hp
    · rw [if_neg hself]
      intro k l hk p hp
      by_cases hkt : k = e.target
      · subst hkt
        rw [mapGet_mapSet_self] at hk
        injection hk with hk
        subst hk
        rcases List.mem_append.mp hp with hp | hp
        · exact hgetD _ p hp
        · rcases List.mem_cons.mp hp with hpe | hp2
          · rw [hpe]
            exact he.1
          · cases hp2
      · rw [mapGet_mapSet_ne _ _ _ _ hkt] at hk
        by_cases hks : k = e.source
        · subst hks
          rw [mapGet_mapSet_self] at hk
          injection hk with hk
          subst hk
          rcases List.mem_append.mp hp with hp | hp
          · exact hgetD _ p hp
          · rcases List.mem_cons.mp hp with hpe | hp2
            · rw [hpe]
              exact he.2
            · cases hp2
        · rw [mapGet_mapSet_ne _ _ _ _ hks] at hk
          exact hm k l hk p hp

theorem createAdjacencyList_values (gr : Graph) (S : List String)
    (hw : ∀ e ∈ gr.edges, e.source ∈ S ∧ e.target ∈ S) (k : String)
    (l : List (String × ℤ)) (hl : mapGet (createAdjacencyList gr) k = some l) :
    ∀ p ∈ l, p.1 ∈ S := by
  refine adjacency_fold_values S gr.edges hw _ ?_ k l hl
  intro k' l' hl'
  rw [foldl_mapSet_get gr.nodes (fun _ => ([] : List (String × ℤ))) [] k'] at hl'
  by_cases hk' : k' ∈ gr.nodes.map Node.id
  · rw [if_pos hk'] at hl'
    injection hl' with hl'
    subst hl'
    intro p hp
    cases hp
  · rw [if_neg hk'] at hl'
    cases hl'

theorem neighbors_values (gr : Graph) (S : List String)
    (hw : ∀ e ∈ gr.edges, e.source ∈ S ∧ e.target ∈ S) (u : String) :
    ∀ p ∈ (mapGet (createAdjacencyList gr) u).getD [], p.1 ∈ S := by
  intro p hp
  rcases h : mapGet (createAdjacencyList gr) u with _ | c
  · rw [h] at hp
    cases hp
  · rw [h] at hp
    exact createAdjacencyList_values gr S hw u c h p hp

/-! ### The partition and domain invariant (claim C10) -/

theorem graphShape_init (g : Graph) (startNodeId : String) :
    GraphShapeInvariant g (initializeDijkstra g startNodeId) := by
  constructor
  · show (g.nodes.map _).map Node.id = g.nodes.map Node.id
    rw [List.map_map]
    rfl
  · rfl

theorem graphShape_advance (g : Graph) (s : DijkstraStep)
    (h : GraphShapeInvariant g s) : GraphShapeInvariant g (dijkstraNextStep s) := by
  rcases dijkstraNextStep_cases s with heq | ⟨u, _, _, _, heq⟩
  · rw [heq]
    exact h
  · rw [heq]
    exact ⟨(advanceCore_nodes_map_id s u).trans h.1, (advanceCore_edges s u).trans h.2⟩

theorem partitionInvariant_init (g : Graph) (startNodeId : String) :
    PartitionInvariant g (initializeDijkstra g startNodeId) := by
  refine ⟨?_, ?_, ?_, ?_⟩
  · intro x hx
    cases hx
  · intro x
    constructor
    · rintro (hx | hx)
      · cases hx
      · simpa using (foldl_setAdd_mem g.nodes [] x).mp hx
    · intro hx
      exact Or.inr ((foldl_setAdd_mem g.nodes [] x).mpr (Or.inr hx))
  · intro x
    show (mapGet (g.nodes.foldl (fun m node =>
      mapSet m node.id (if node.id = startNodeId then JNum.num 0 else JNum.inf)) []) x).isSome ↔ _
    rw [foldl_mapSet_get g.nodes
      (fun nid => if nid = startNodeId then JNum.num 0 else JNum.inf) [] x]
    by_cases hx : x ∈ g.nodes.map Node.id <;> simp [hx, mapGet]
  · intro x
    show (mapGet (g.nodes.foldl (fun m node => mapSet m node.id none) []) x).isSome ↔ _
    rw [foldl_mapSet_get g.nodes (fun _ => (none : Option String)) [] x]
    by_cases hx : x ∈ g.nodes.map Node.id <;> simp [hx, mapGet]

theorem partitionInvariant_advance (g : Graph) (s : DijkstraStep)
    (hwf : edgesReferenceNodes g)
    (hshape : GraphShapeInvariant g s)
    (hstep : StepInvariant (g.nodes.map Node.id) s)
    (hpart : PartitionInvariant g s) :
    PartitionInvariant g (dijkstraNextStep s) := by
  rcases dijkstraNextStep_cases s with heq | ⟨u, hdone, hcur, hu, heq⟩
  · rw [heq]
    exact hpart
  · rw [heq]
    obtain ⟨hdisj, hunion, hdist, hprev⟩ := hpart
    obtain ⟨hnodes_eq, hedges_eq⟩ := hshape
    have hmem_u : u ∈ s.unvisitedNodes := by
      obtain ⟨_, _, hc⟩ := hstep
      obtain ⟨u', hcu', hm⟩ := hc hdone
      rw [hcur] at hcu'
      injection hcu' with e
      exact e ▸ hm
    have hneigh : ∀ p ∈ (mapGet (createAdjacencyList s.graph) u).getD [],
        p.1 ∈ g.nodes.map Node.id := by
      refine neighbors_values s.graph (g.nodes.map Node.id) ?_ u
      intro e he
      rw [hedges_eq] at he
      exact hwf e he
    have hdom := relaxNeighbors_isSome (setAdd s.visitedNodes u) u
      (jsOr0 (mapGet s.distances u)) ((mapGet (createAdjacencyList s.graph) u).getD [])
      (s.distances, s.previous) (g.nodes.map Node.id) hneigh hdist hprev
    refine ⟨?_, ?_, ?_, ?_⟩
    · intro x hx hx'
      rw [advanceCore_visitedNodes, mem_setAdd] at hx
      rw [advanceCore_unvisitedNodes, mem_setDelete] at hx'
      rcases hx with hx | rfl
      · exact hdisj x hx hx'.1
      · exact hx'.2 rfl
    · intro x
      rw [advanceCore_visitedNodes, advanceCore_unvisitedNodes, mem_setAdd, mem_setDelete]
      constructor
      · rintro ((hx | rfl) | ⟨hx, _⟩)
        · exact (hunion x).mp (Or.inl hx)
        · exact (hunion _).mp (Or.inr hmem_u)
        · exact (hunion x).mp (Or.inr hx)
      · intro hx
        rcases (hunion x).mpr hx with hv | huv
        · exact Or.inl (Or.inl hv)
        · by_cases hxu : x = u
          · exact Or.inl (Or.inr hxu)
          · exact Or.inr ⟨huv, hxu⟩
    · rw [advanceCore_distances]
      exact hdom.1
    · rw [advanceCore_previous]
      exact hdom.2

theorem relaxNeighbors_cons_pair (vis : List String) (u : String) (cd : JNum)
    (v : String) (w : ℤ) (t : List (String × ℤ))
    (dp : JMap JNum × JMap (Option String)) :
    relaxNeighbors vis u cd ((v, w) :: t) dp =
      relaxNeighbors vis u cd t
        (if v ∈ vis then dp
         else if JNum.ltb (JNum.add cd (JNum.num w)) (jsOrInf (mapGet dp.1 v)) then
           (mapSet dp.1 v (JNum.add cd (JNum.num w)), mapSet dp.2 v (some u))
         else dp) :=
  relaxNeighbors_cons vis u cd (v, w) t dp

/-! ### The claims -/

/-- Claim C4, amended: `initializeDijkstra` on a start id naming an
existing node yields distance 0 for the start, infinity for every other
node, null predecessors, unvisited = all node ids, empty visited, the
start as current node, `isDone = false`, unchanged edges, and a graph
copy in which the start node is marked `start`, a pre-existing `end`
status is preserved, and every other node's status is reset to `default`
(not left unchanged, as the original claim stated). -/
theorem c4_init_amended (g : Graph) (startNodeId : String)
    (hstart : startNodeId ∈ g.nodes.map Node.id) :
    mapGet (initializeDijkstra g startNodeId).distances startNodeId = some (JNum.num 0) ∧
    (∀ x ∈ g.nodes.map Node.id, x ≠ startNodeId →
      mapGet (initializeDijkstra g startNodeId).distances x = some JNum.inf) ∧
    (∀ x ∈ g.nodes.map Node.id,
      mapGet (initializeDijkstra g startNodeId).previous x = some none) ∧
    (∀ x, x ∈ (initializeDijkstra g startNodeId).unvisitedNodes ↔ x ∈ g.nodes.map Node.id) ∧
    (initializeDijkstra g startNodeId).visitedNodes = [] ∧
    (initializeDijkstra g startNodeId).currentNode = some startNodeId ∧
    (initializeDijkstra g startNodeId).isDone = false ∧
    (initializeDijkstra g startNodeId).graph.edges = g.edges ∧
    (initializeDijkstra g startNodeId).graph.nodes = g.nodes.map (fun node =>
      { node with status :=
          if node.id = startNodeId then some NodeStatus.start
          else if node.status = some NodeStatus.end_ then some NodeStatus.end_
          else some NodeStatus.default }) := by
  refine ⟨?_, ?_, ?_, ?_, rfl, rfl, rfl, rfl, rfl⟩
  · show mapGet (g.nodes.foldl (fun m node =>
      mapSet m node.id (if node.id = startNodeId then JNum.num 0 else JNum.inf)) []) _ = _
    rw [foldl_mapSet_get g.nodes
      (fun nid => if nid = startNodeId then JNum.num 0 else JNum.inf) [] startNodeId]
    rw [if_pos hstart, if_pos rfl]
  · intro x hx hxs
    show mapGet (g.nodes.foldl (fun m node =>
      mapSet m node.id (if node.id = startNodeId then JNum.num 0 else JNum.inf)) []) _ = _
    rw [foldl_mapSet_get g.nodes
      (fun nid => if nid = startNodeId then JNum.num 0 else JNum.inf) [] x]
    rw [if_pos hx, if_neg hxs]
  · intro x hx
    show mapGet (g.nodes.foldl (fun m node => mapSet m node.id none) []) _ = _
    rw [foldl_mapSet_get g.nodes (fun _ => (none : Option String)) [] x]
    rw [if_pos hx]
  · intro x
    show x ∈ g.nodes.foldl (fun s node => setAdd s node.id) [] ↔ _
    rw [foldl_setAdd_mem g.nodes [] x]
    simp

/-- Claim C5: during a non-terminal advance with current node `u`, an
unvisited neighbor `v` joined to `u` by the one adjacency entry of
weight `w` has its distance replaced by `distance[u] + w` and its
predecessor set to `u` exactly when that candidate is strictly smaller
than its previous distance, and both are unchanged otherwise.  The
hypothesis `dv ≠ 0` reflects that the code reads the previous distance
through `|| Infinity`, under which a stored 0 would be misread; with
positive weights no unvisited node ever holds distance 0 when relaxed. -/
theorem c5_relaxation (s : DijkstraStep) (u v : String) (w : ℤ) (du dv : JNum)
    (l1 l2 : List (String × ℤ))
    (hdone : s.isDone = false) (hcur : s.currentNode = some u) (hu : u ≠ "")
    (hadj : (mapGet (createAdjacencyList s.graph) u).getD [] = l1 ++ (v, w) :: l2)
    (hv1 : v ∉ l1.map Prod.fst) (hv2 : v ∉ l2.map Prod.fst)
    (hvisited : v ∉ s.visitedNodes) (hvu : v ≠ u)
    (hdu : mapGet s.distances u = some du)
    (hdv : mapGet s.distances v = some dv) (hdv0 : dv ≠ JNum.num 0) :
    mapGet (dijkstraNextStep s).distances v =
      some (if JNum.ltb (JNum.add du (JNum.num w)) dv then JNum.add du (JNum.num w) else dv) ∧
    mapGet (dijkstraNextStep s).previous v =
      (if JNum.ltb (JNum.add du (JNum.num w)) dv then some (some u)
       else mapGet s.previous v) := by
  have hvis : v ∉ setAdd s.visitedNodes u := by
    intro hm
    rcases (mem_setAdd _ _ _).mp hm with h | h
    · exact hvisited h
    · exact hvu h
  rw [dijkstraNextStep_eq_core s u hdone hcur hu]
  rw [advanceCore_distances, advanceCore_previous, hadj, hdu]
  simp only [jsOr0, Option.getD_some]
  rw [relaxNeighbors_append, relaxNeighbors_cons_pair, if_neg hvis]
  have hdp1 := relaxNeighbors_get_of_not_mem (setAdd s.visitedNodes u) u du l1
    (s.distances, s.previous) v hv1
  rw [hdp1.1, hdv]
  have hinf : jsOrInf (some dv) = dv := by
    simp [jsOrInf, hdv0]
  rw [hinf]
  by_cases hlt : JNum.ltb (JNum.add du (JNum.num w)) dv = true
  · rw [if_pos hlt]
    have h2 := relaxNeighbors_get_of_not_mem (setAdd s.visitedNodes u) u du l2
      (mapSet (relaxNeighbors (setAdd s.visitedNodes u) u du l1
          (s.distances, s.previous)).1 v (JNum.add du (JNum.num w)),
        mapSet (relaxNeighbors (setAdd s.visitedNodes u) u du l1
          (s.distances, s.previous)).2 v (some u)) v hv2
    constructor
    · rw [h2.1]
      show mapGet (mapSet _ v (JNum.add du (JNum.num w))) v = _
      rw [mapGet_mapSet_self, if_pos hlt]
    · rw [h2.2]
      show mapGet (mapSet _ v (some u)) v = _
      rw [mapGet_mapSet_self, if_pos hlt]
  · have hlt' : JNum.ltb (JNum.add du (JNum.num w)) dv = false := by simpa using hlt
    rw [if_neg (by simp [hlt'])]
    have h2 := relaxNeighbors_get_of_not_mem (setAdd s.visitedNodes u) u du l2
      (relaxNeighbors (setAdd s.visitedNodes u) u du l1 (s.distances, s.previous)) v hv2
    constructor
    · rw [h2.1, hdp1.1, hdv, if_neg (by simp [hlt'])]
    · rw [h2.2, hdp1.2, if_neg (by simp [hlt'])]

/-- Claim C6: along the trace produced by `initializeDijkstra` followed
by repeated `dijkstraNextStep` on a graph with positive edge weights,
a node that is visited at step `i` is visited at every later step `j`,
with the same stored distance. -/
theorem c6_visited_stable (g : Graph) (startNodeId : String) (i j : Nat) (x : String)
    (_hw : ∀ e ∈ g.edges, 0 < e.weight) (hij : i ≤ j)
    (hx : x ∈ (traceStep g startNodeId i).visitedNodes) :
    x ∈ (traceStep g startNodeId j).visitedNodes ∧
    mapGet (traceStep g startNodeId j).distances x =
      mapGet (traceStep g startNodeId i).distances x := by
  induction j, hij using Nat.le_induction with
  | base => exact ⟨hx, rfl⟩
  | succ n hn ih =>
    obtain ⟨h1, h2⟩ := ih
    have h3 := advance_keeps_visited (traceStep g startNodeId n) x h1
    exact ⟨h3.1, h3.2.trans h2⟩

/-- Claim C7: with a valid (nonempty-id) start node, every non-terminal
step of the trace removes exactly one node (its current, unvisited node)
from the unvisited set, and after as many advance calls as there are
nodes the trace is terminal. -/
theorem c7_termination (g : Graph) (startNodeId : String)
    (hstart : startNodeId ∈ g.nodes.map Node.id)
    (hne : ∀ n ∈ g.nodes, n.id ≠ "") :
    (∀ i, (traceStep g startNodeId i).isDone = false →
      ∃ u, (traceStep g startNodeId i).currentNode = some u ∧
        u ∈ (traceStep g startNodeId i).unvisitedNodes ∧
        (traceStep g startNodeId (i + 1)).unvisitedNodes.length + 1 =
          (traceStep g startNodeId i).unvisitedNodes.length) ∧
    (traceStep g startNodeId g.nodes.length).isDone = true := by
  have hne' : ∀ x ∈ g.nodes.map Node.id, x ≠ "" := by
    intro x hx
    obtain ⟨n, hn, rfl⟩ := List.mem_map.mp hx
    exact hne n hn
  constructor
  · intro i hi
    exact advance_removes_one _ _ (stepInvariant_trace g startNodeId hstart i) hne' hi
  · by_cases hd : (traceStep g startNodeId g.nodes.length).isDone = true
    · exact hd
    · exfalso
      have hd' : (traceStep g startNodeId g.nodes.length).isDone = false := by simpa using hd
      have hbound := traceStep_length_bound g startNodeId hstart hne' g.nodes.length hd'
      have hL0 : (traceStep g startNodeId 0).unvisitedNodes.length ≤ g.nodes.length := by
        show (g.nodes.foldl (fun s node => setAdd s node.id) []).length ≤ g.nodes.length
        simpa using foldl_setAdd_length_le g.nodes []
      obtain ⟨_, _, hc⟩ := stepInvariant_trace g startNodeId hstart g.nodes.length
      obtain ⟨u, _, hmem⟩ := hc hd'
      have hpos : 0 < (traceStep g startNodeId g.nodes.length).unvisitedNodes.length :=
        List.length_pos_of_mem hmem
      omega

/-- Claim C10: in every step of the trace from a valid start on a graph
whose edges reference existing node ids (the data-model invariant of the
spec), visited and unvisited nodes are disjoint, their union is exactly
the node ids of the input graph, and the distances and previous maps
have exactly that id set as their domain. -/
theorem c10_partition_invariant (g : Graph) (startNodeId : String)
    (hwf : edgesReferenceNodes g)
    (hstart : startNodeId ∈ g.nodes.map Node.id) (i : Nat) :
    PartitionInvariant g (traceStep g startNodeId i) := by
  have main : ∀ j, GraphShapeInvariant g (traceStep g startNodeId j) ∧
      PartitionInvariant g (traceStep g startNodeId j) := by
    intro j
    induction j with
    | zero => exact ⟨graphShape_init g startNodeId, partitionInvariant_init g startNodeId⟩
    | succ n ih =>
      exact ⟨graphShape_advance _ _ ih.1,
        partitionInvariant_advance g _ hwf ih.1
          (stepInvariant_trace g startNodeId hstart n) ih.2⟩
  exact (main i).2

/-- Claim C1, counterexample: on the demo graph the full run from A to E
does not yield shortest distance 8 (its own path A-D-C-E already sums to
3+1+6 = 10). -/
theorem c1_counterexample :
    (runDijkstraAlgorithm generateDemoGraph "A" "E").shortestDistance ≠
      some (JNum.num 8) := by
  decide

/-- Claim C1, amended: on the demo graph the full run from A to E yields
shortest distance 10 with shortest path A, D, C, E and success. -/
theorem c1_demo_run :
    (runDijkstraAlgorithm generateDemoGraph "A" "E").shortestDistance =
      some (JNum.num 10) ∧
    (runDijkstraAlgorithm generateDemoGraph "A" "E").shortestPath =
      some ["A", "D", "C", "E"] ∧
    (runDijkstraAlgorithm generateDemoGraph "A" "E").success = true := by
  decide

/-- Claim C2 (code bug): running with end = start does not yield path
[start] with distance 0.  For start B (not the first node) the
reconstruction guard compares against the map's first key instead of the
start node and returns no path at all; even for start A (the first node)
the distance 0 is coerced to none by `|| null`. -/
theorem c2_start_eq_end_eval :
    (runDijkstraAlgorithm generateDemoGraph "B" "B").shortestPath = none ∧
    (runDijkstraAlgorithm generateDemoGraph "B" "B").success = false ∧
    (runDijkstraAlgorithm generateDemoGraph "B" "B").shortestDistance = none ∧
    (runDijkstraAlgorithm generateDemoGraph "A" "A").shortestPath = some ["A"] ∧
    (runDijkstraAlgorithm generateDemoGraph "A" "A").shortestDistance = none := by
  decide

/-- Claim C3 (code bug): when no path exists the Result does not carry
`shortestDistance = none`: the Infinity sentinel is truthy and passes the
`|| null` fallback.  Moreover, when the unreachable end node happens to
be the first node of the graph, the reconstruction guard's first-key test
misfires and the run even reports success with path [end]. -/
theorem c3_no_path_eval :
    (runDijkstraAlgorithm isolatedPairSX "S" "X").success = false ∧
    (runDijkstraAlgorithm isolatedPairSX "S" "X").shortestPath = none ∧
    (runDijkstraAlgorithm isolatedPairSX "S" "X").shortestDistance = some JNum.inf ∧
    (runDijkstraAlgorithm isolatedPairXS "S" "X").success = true ∧
    (runDijkstraAlgorithm isolatedPairXS "S" "X").shortestPath = some ["X"] ∧
    (runDijkstraAlgorithm isolatedPairXS "S" "X").shortestDistance = some JNum.inf := by
  decide

/-- Claim C4, counterexample: `initializeDijkstra` does not leave other
node statuses unchanged: a pre-existing `visited` status is reset to
`default`. -/
theorem c4_counterexample :
    statusProbeGraph.nodes.map Node.status =
      [some NodeStatus.default, some NodeStatus.visited] ∧
    (initializeDijkstra statusProbeGraph "A").graph.nodes.map Node.status =
      [some NodeStatus.start, some NodeStatus.default] := by
  decide

/-- Claim C8: advancing a step that is terminal (`isDone`) or has no
current node returns the step unchanged, hence with equal distances,
previous, currentNode, visitedNodes, unvisitedNodes, graph content,
isDone and shortestPath. -/
theorem c8_terminal_idempotent (s : DijkstraStep)
    (h : s.isDone = true ∨ s.currentNode = none) :
    dijkstraNextStep s = s := by
  rcases h with h | h
  · exact dijkstraNextStep_of_done s h
  · refine dijkstraNextStep_of_falsy s ?_
    rw [h]
    rfl

/-- Witness for claim C8 at the terminal step of the demo run. -/
theorem c8_terminal_idempotent_witness :
    ((finalRunStep generateDemoGraph "A").isDone = true ∨
      (finalRunStep generateDemoGraph "A").currentNode = none) ∧
    dijkstraNextStep (finalRunStep generateDemoGraph "A") =
      finalRunStep generateDemoGraph "A" :=
  ⟨Or.inl (by decide),
    c8_terminal_idempotent (finalRunStep generateDemoGraph "A") (Or.inl (by decide))⟩

/-- Claim C9: `visualizeShortestPath` on a path of length < 2 returns the
input graph itself, so all node and edge content including statuses is
unchanged. -/
theorem c9_highlight_short_path (g : Graph) (path : List String)
    (h : path.length < 2) : visualizeShortestPath g path = g := by
  unfold visualizeShortestPath
  rw [if_pos h]

/-- Witness for claim C9 on the demo graph and the empty path. -/
theorem c9_highlight_short_path_witness :
    ([] : List String).length < 2 ∧
    visualizeShortestPath generateDemoGraph [] = generateDemoGraph :=
  ⟨by decide, c9_highlight_short_path generateDemoGraph [] (by decide)⟩

/-- Witness for claim C4 (amended) on the demo graph with start A. -/
theorem c4_init_amended_witness :
    "A" ∈ generateDemoGraph.nodes.map Node.id ∧
    (mapGet (initializeDijkstra generateDemoGraph "A").distances "A" =
        some (JNum.num 0) ∧
      (∀ x ∈ generateDemoGraph.nodes.map Node.id, x ≠ "A" →
        mapGet (initializeDijkstra generateDemoGraph "A").distances x = some JNum.inf) ∧
      (∀ x ∈ generateDemoGraph.nodes.map Node.id,
        mapGet (initializeDijkstra generateDemoGraph "A").previous x = some none) ∧
      (∀ x, x ∈ (initializeDijkstra generateDemoGraph "A").unvisitedNodes ↔
        x ∈ generateDemoGraph.nodes.map Node.id) ∧
      (initializeDijkstra generateDemoGraph "A").visitedNodes = [] ∧
      (initializeDijkstra generateDemoGraph "A").currentNode = some "A" ∧
      (initializeDijkstra generateDemoGraph "A").isDone = false ∧
      (initializeDijkstra generateDemoGraph "A").graph.edges = generateDemoGraph.edges ∧
      (initializeDijkstra generateDemoGraph "A").graph.nodes =
        generateDemoGraph.nodes.map (fun node =>
          { node with status :=
              if node.id = "A" then some NodeStatus.start
              else if node.status = some NodeStatus.end_ then some NodeStatus.end_
              else some NodeStatus.default })) :=
  ⟨by decide, c4_init_amended generateDemoGraph "A" (by decide)⟩

/-- Witness for claim C5: relaxing B from A on the two-node graph with
one edge of weight 1. -/
theorem c5_relaxation_witness :
    mapGet (initializeDijkstra pairEdgeGraph "A").distances "B" = some JNum.inf ∧
    (mapGet (dijkstraNextStep (initializeDijkstra pairEdgeGraph "A")).distances "B" =
        some (if JNum.ltb (JNum.add (JNum.num 0) (JNum.num 1)) JNum.inf then
          JNum.add (JNum.num 0) (JNum.num 1) else JNum.inf) ∧
      mapGet (dijkstraNextStep (initializeDijkstra pairEdgeGraph "A")).previous "B" =
        (if JNum.ltb (JNum.add (JNum.num 0) (JNum.num 1)) JNum.inf then some (some "A")
         else mapGet (initializeDijkstra pairEdgeGraph "A").previous "B")) :=
  ⟨by decide,
    c5_relaxation (initializeDijkstra pairEdgeGraph "A") "A" "B" 1 (JNum.num 0) JNum.inf
      [] [] (by decide) (by decide) (by decide) (by decide) (by decide) (by decide)
      (by decide) (by decide) (by decide) (by decide) (by decide)⟩

/-- Witness for claim C6 on the demo graph: A is visited from step 1 on
and keeps its distance at step 2. -/
theorem c6_visited_stable_witness :
    (∀ e ∈ generateDemoGraph.edges, 0 < e.weight) ∧ 1 ≤ 2 ∧
    "A" ∈ (traceStep generateDemoGraph "A" 1).visitedNodes ∧
    ("A" ∈ (traceStep generateDemoGraph "A" 2).visitedNodes ∧
      mapGet (traceStep generateDemoGraph "A" 2).distances "A" =
        mapGet (traceStep generateDemoGraph "A" 1).distances "A") :=
  ⟨by decide, by decide, by decide,
    c6_visited_stable generateDemoGraph "A" 1 2 "A" (by decide) (by decide) (by decide)⟩

/-- Witness for claim C7 on the demo graph with start A. -/
theorem c7_termination_witness :
    "A" ∈ generateDemoGraph.nodes.map Node.id ∧
    (∀ n ∈ generateDemoGraph.nodes, n.id ≠ "") ∧
    (traceStep generateDemoGraph "A" generateDemoGraph.nodes.length).isDone = true :=
  ⟨by decide, by decide,
    (c7_termination generateDemoGraph "A" (by decide) (by decide)).2⟩

/-- Witness for claim C10 on the demo graph with start A, after three
advance calls. -/
theorem c10_partition_invariant_witness :
    edgesReferenceNodes generateDemoGraph ∧
    "A" ∈ generateDemoGraph.nodes.map Node.id ∧
    PartitionInvariant generateDemoGraph (traceStep generateDemoGraph "A" 3) :=
  ⟨by unfold edgesReferenceNodes; decide, by decide,
    c10_partition_invariant generateDemoGraph "A" (by unfold edgesReferenceNodes; decide)
      (by decide) 3⟩

end DijkstraVis
